import Mathlib

/-!
Verification development for the CryptoVisor order-book pipeline
(`src/app/page.tsx`, `src/constants/trading.ts`).

Shallow embedding conventions:
* JavaScript numbers are modelled as rationals.  A `parseFloat` result is
  modelled as `Option ℚ`: `none` stands for `NaN` (the only value the code
  tests for with `isNaN`), `some q` for a parsed finite number.
* A raw order-book level (`[string, string]` on the wire) is either
  `malformed` (not an array of exactly two fields) or a `pair` of the two
  parse results.
* `Array.prototype.sort` with the comparator `(a, b) => b.price - a.price`
  is a stable sort into non-increasing price order; it is modelled by a
  stable insertion sort with the same ordering.
* Timestamps (`Date.now()`) are integers (milliseconds).
* React state and refs are collected in an explicit record `TVState`;
  each handler becomes a pure state transformer.
-/

namespace CryptoVisor

/-- `TradingPair` from `src/constants/trading.ts`. -/
structure TradingPair where
  symbol : String
  name : String
  binanceSymbol : String
deriving Repr, DecidableEq

/-- The configured pair list from `src/constants/trading.ts`. -/
def tradingPairs : List TradingPair :=
  [⟨"BTCUSDT", "BTC-USD", "BTCUSDT"⟩,
   ⟨"ETHUSDT", "ETH-USD", "ETHUSDT"⟩,
   ⟨"XRPUSDT", "XRP-USD", "XRPUSDT"⟩]

/-- A raw level as seen by `processPriceLevel`: either not an array of
exactly two entries (`malformed`), or the two `parseFloat` results
(`none` = `NaN`). -/
inductive RawLevel where
  | malformed
  | pair (price : Option ℚ) (amount : Option ℚ)
deriving Repr, DecidableEq

/-- A surviving price level (`{price, amount}`). -/
structure Level where
  price : ℚ
  amount : ℚ
deriving Repr, DecidableEq

/-- An order-book entry after totals and change are attached. -/
structure Entry where
  price : ℚ
  amount : ℚ
  total : ℚ
  change : ℚ
deriving Repr, DecidableEq

/-- `OrderBookData` (`{bids, asks}`). -/
structure OrderBookData where
  bids : List Entry
  asks : List Entry
deriving Repr, DecidableEq

/-- A spread-history sample (`{time, spread}`). -/
structure SpreadSample where
  time : ℤ
  spread : ℚ
deriving Repr, DecidableEq

/-- The connection status union type of the component. -/
inductive ConnStatus where
  | connecting
  | connected
  | disconnected
  | error
deriving Repr, DecidableEq

/-- The component state touched by the data pipeline: React state
(`orderBookData`, `spreadHistory`, `imbalance`, `connectionStatus`) and the
refs (`lastUpdateRef`, `prevOrderBookRef`, `performanceRef`). -/
structure TVState where
  orderBookData : OrderBookData
  spreadHistory : List SpreadSample
  imbalance : ℚ
  connectionStatus : ConnStatus
  lastUpdate : ℤ
  prevOrderBook : OrderBookData
  messageCount : ℕ
  lastMessageTime : ℤ
  lastCleanup : ℤ
deriving Repr, DecidableEq

/-- The initial values of the state and refs in `TradingView`. -/
def initState : TVState :=
  { orderBookData := ⟨[], []⟩
    spreadHistory := []
    imbalance := 0
    connectionStatus := .disconnected
    lastUpdate := 0
    prevOrderBook := ⟨[], []⟩
    messageCount := 0
    lastMessageTime := 0
    lastCleanup := 0 }

/-- `processPriceLevel` (page.tsx lines 284-306).  Rejects a level that is
not an array of exactly two fields, parses both fields, rejects the level
if either parse is `NaN`, and divides the price by 40000 when the selected
pair's `symbol` field is the string `XRP-USD` and the price exceeds 1000.
The `try`/`catch` around the body is unreachable (`parseFloat` does not
throw) and is not modelled. -/
def processPriceLevel (symbol : String) : RawLevel → Option Level
  | .pair (some p) (some a) =>
      some { price := if symbol = "XRP-USD" ∧ 1000 < p then p / 40000 else p
             amount := a }
  | _ => none

/-- One insertion step of the stable descending sort: `x` is placed before
the first element whose price is at most `x.price` (so among equal prices
the earlier element stays first, as with JavaScript's stable sort). -/
def insertDesc (x : Level) : List Level → List Level
  | [] => [x]
  | y :: ys => if y.price ≤ x.price then x :: y :: ys else y :: insertDesc x ys

/-- Stable sort into non-increasing price order; models
`.sort((a, b) => b.price - a.price)`. -/
def sortDesc : List Level → List Level
  | [] => []
  | x :: xs => insertDesc x (sortDesc xs)

/-- `processOrders` (page.tsx lines 309-327): map `processPriceLevel`,
drop the rejected entries, sort descending by price, keep the first 20.
The `!Array.isArray(orders)` guard and the `catch` arm both return `[]`
and are unreachable for a genuine array argument, which is the only call
shape (`handleMessage` checks `Array.isArray` before calling). -/
def processOrders (symbol : String) (orders : List RawLevel) : List Level :=
  (sortDesc (orders.filterMap (processPriceLevel symbol))).take 20

/-- Recursion underlying `calculateTotals`: `running` is the running sum
accumulated so far.  The `isNaN(order.amount)` guard of the source is
vacuous in the rational model (every amount is a parsed rational). -/
def calculateTotalsAux (running : ℚ) : List Level → List Entry
  | [] => []
  | o :: rest =>
      { price := o.price, amount := o.amount
        total := running + o.amount, change := 0 }
        :: calculateTotalsAux (running + o.amount) rest

/-- `calculateTotals` (page.tsx lines 330-354). -/
def calculateTotals (orders : List Level) : List Entry :=
  calculateTotalsAux 0 orders

/-- The per-rank `change` pass of `updateOrderBook` (page.tsx lines
405-412): entry `i` gets `amount[i] - prev[i].amount` when `prev` has an
entry at index `i`, else 0. -/
def withChange : List Entry → List Entry → List Entry
  | [], _ => []
  | e :: cur, [] => { e with change := 0 } :: withChange cur []
  | e :: cur, p :: prev => { e with change := e.amount - p.amount } :: withChange cur prev

/-- Bid volume of `calculateImbalance`: `reduce((sum, bid) => sum +
(bid.amount || 0), 0)`.  For a rational amount, `amount || 0` coincides
with `amount` (the only falsy rational is 0 itself). -/
def bidVolume (ob : OrderBookData) : ℚ :=
  ob.bids.foldl (fun sum b => sum + b.amount) 0

/-- Ask volume, same shape as `bidVolume`. -/
def askVolume (ob : OrderBookData) : ℚ :=
  ob.asks.foldl (fun sum a => sum + a.amount) 0

/-- `calculateImbalance` (page.tsx lines 356-362). -/
def calculateImbalance (ob : OrderBookData) : ℚ :=
  if 0 < bidVolume ob + askVolume ob then
    (bidVolume ob - askVolume ob) / (bidVolume ob + askVolume ob)
  else 0

/-- `newOrderBook.bids[0]?.price || 0`: the head price, 0 for an empty
side (for a present head with price 0 the source's `|| 0` also yields 0,
the same value). -/
def bestPrice (l : List Entry) : ℚ :=
  (l.head?.map Entry.price).getD 0

/-- The spread-history update (page.tsx lines 424-427):
`prev.length >= 60 ? [...prev.slice(-59), newEntry] : [...prev, newEntry]`.
`slice(-59)` on a list of length `n ≥ 60` keeps the last 59 elements,
i.e. drops the first `n - 59`. -/
def pushSpread (prev : List SpreadSample) (e : SpreadSample) : List SpreadSample :=
  if 60 ≤ prev.length then prev.drop (prev.length - 59) ++ [e] else prev ++ [e]

/-- Iterated pushes, oldest message first. -/
def pushAll (l : List SpreadSample) (xs : List SpreadSample) : List SpreadSample :=
  xs.foldl pushSpread l

/-- `cleanup` (page.tsx lines 241-281) restricted to the modelled state:
guarded against reentry within 1s, then resets `lastUpdateRef`,
`prevOrderBookRef`, the performance counters and the connection status.
(The transport-handle part of `cleanup` lives in `ConnModel` below.) -/
def cleanup (now : ℤ) (s : TVState) : TVState :=
  if now - s.lastCleanup < 1000 then s
  else
    { s with
        lastCleanup := now
        lastUpdate := 0
        prevOrderBook := ⟨[], []⟩
        messageCount := 0
        lastMessageTime := 0
        connectionStatus := .disconnected }

/-- `const newOrderBook = {...}` of `updateOrderBook` (page.tsx lines
404-413): both processed sides with totals attached and per-rank changes
against the previous book. -/
def nextOrderBook (symbol : String) (bids asks : List RawLevel)
    (prev : OrderBookData) : OrderBookData :=
  ⟨withChange (calculateTotals (processOrders symbol bids)) prev.bids,
   withChange (calculateTotals (processOrders symbol asks)) prev.asks⟩

/-- The `try` body of `updateOrderBook` (page.tsx lines 393-429): process
both sides, drop the update when both processed sides are empty, else
attach totals and changes, record the new book as previous, publish it,
push the spread sample (`max 0 (bestAsk - bestBid)`) and recompute the
imbalance.  The `requestAnimationFrame` deferral publishes exactly these
values and is modelled as immediate. -/
def publish (symbol : String) (now : ℤ) (bids asks : List RawLevel) (s : TVState) : TVState :=
  if processOrders symbol bids = [] ∧ processOrders symbol asks = [] then s
  else
    { s with
        prevOrderBook := nextOrderBook symbol bids asks s.prevOrderBook
        orderBookData := nextOrderBook symbol bids asks s.prevOrderBook
        spreadHistory := pushSpread s.spreadHistory
          ⟨now, max 0 (bestPrice (nextOrderBook symbol bids asks s.prevOrderBook).asks
                        - bestPrice (nextOrderBook symbol bids asks s.prevOrderBook).bids)⟩
        imbalance := calculateImbalance (nextOrderBook symbol bids asks s.prevOrderBook) }

/-- `updateOrderBook` (page.tsx lines 365-433): the 500ms throttle gate,
then the message-frequency bookkeeping (`messageCount++`,
`timeSinceLastMessage` computed against the old `lastMessageTime`, which
is then set to `now`), the flood branch (more than 100 messages with the
last gap under 1000ms runs `cleanup` and returns; its scheduled reconnect
is outside the modelled state), the counter reset when the gap exceeds
1000ms, then the publish body. -/
def updateOrderBook (symbol : String) (now : ℤ) (bids asks : List RawLevel)
    (s : TVState) : TVState :=
  if now - s.lastUpdate < 500 then s
  else if 100 < s.messageCount + 1 ∧ now - s.lastMessageTime < 1000 then
    cleanup now
      { s with lastUpdate := now, messageCount := s.messageCount + 1, lastMessageTime := now }
  else if 1000 < now - s.lastMessageTime then
    publish symbol now bids asks
      { s with lastUpdate := now, messageCount := 0, lastMessageTime := now }
  else
    publish symbol now bids asks
      { s with lastUpdate := now, messageCount := s.messageCount + 1, lastMessageTime := now }

/-- The throttle gate of `updateOrderBook` as a standalone state
transformer on `lastUpdateRef`: `if (now - last < 500) return` rejects and
leaves the ref untouched; otherwise `lastUpdateRef.current = now` admits. -/
def throttleGate (last now : ℤ) : Bool × ℤ :=
  if now - last < 500 then (false, last) else (true, now)

/-- A raw inbound frame after `JSON.parse`:
* `malformed` — the parse threw, or yielded a falsy value;
* `ping tok` — an object with a `ping` field;
* `depthUpdate tag b a` — `e === 'depthUpdate'`, with optional symbol tag
  (`none` = absent or falsy) and the `b`/`a` fields (`none` = not an
  array);
* `book bids asks` — no recognized `e`, but array `bids`/`asks` fields;
* `other` — anything else. -/
inductive RawMsg where
  | malformed
  | ping (token : ℤ)
  | depthUpdate (tag : Option String) (b : Option (List RawLevel)) (a : Option (List RawLevel))
  | book (bids : List RawLevel) (asks : List RawLevel)
  | other
deriving Repr, DecidableEq

/-- What a message routes to: a heartbeat reply (no published-state
impact) or an order-book update. -/
inductive RoutedEvent where
  | pong (token : ℤ)
  | update (bids : List RawLevel) (asks : List RawLevel)
deriving Repr, DecidableEq

/-- The `b`/`a` validation of the depth branch:
`Array.isArray(bids) && Array.isArray(asks)`. -/
def routeArrays : Option (List RawLevel) → Option (List RawLevel) → Option RoutedEvent
  | some bl, some al => some (.update bl al)
  | _, _ => none

/-- The classification performed by `handleMessage` (page.tsx lines
436-466).  `urlMatches` is whether the current transport's address
contains the active feed symbol (the defensive check on the untagged book
shape). -/
def route (pair : TradingPair) (urlMatches : Bool) : RawMsg → Option RoutedEvent
  | .malformed => none
  | .ping t => some (.pong t)
  | .depthUpdate tag b a =>
      match tag with
      | some tg =>
          if tg.toLower ≠ pair.binanceSymbol.toLower then none else routeArrays b a
      | none => routeArrays b a
  | .book bids asks => if urlMatches then some (.update bids asks) else none
  | .other => none

/-- `handleMessage` as a state transformer: route the frame, apply
`updateOrderBook` on an update, do nothing to the published state
otherwise (a `pong` only writes to the socket). -/
def handleMessage (pair : TradingPair) (urlMatches : Bool) (now : ℤ)
    (m : RawMsg) (s : TVState) : TVState :=
  match route pair urlMatches m with
  | none => s
  | some (.pong _) => s
  | some (.update bids asks) => updateOrderBook pair.symbol now bids asks s

/-- Connection-identity model.  Each `new WebSocket(...)` yields a fresh
object; object identity is modelled by a counter `nextId`, and
`wsRef.current` by `wsRef : Option ℕ` (`none` after `cleanup` nulls it).
-/
structure ConnModel where
  nextId : ℕ
  wsRef : Option ℕ
  tv : TVState
deriving Repr, DecidableEq

/-- `setupWebSocket` creating a connection and storing it in `wsRef`
(`wsRef.current = ws`): the new connection is a fresh object, so it gets
the next unused identity. -/
def openConn (m : ConnModel) : ConnModel :=
  { m with nextId := m.nextId + 1, wsRef := some m.nextId }

/-- A message delivery on connection `wsId` (page.tsx lines 513-518):
`ws.onmessage` runs `handleMessage` only when `ws === wsRef.current`. -/
def deliver (pair : TradingPair) (urlMatches : Bool) (wsId : ℕ) (now : ℤ)
    (msg : RawMsg) (m : ConnModel) : ConnModel :=
  if m.wsRef = some wsId then
    { m with tv := handleMessage pair urlMatches now msg m.tv }
  else m

/-- One delivery description: pair, url check, connection id, time, frame. -/
structure Delivery where
  pair : TradingPair
  urlMatches : Bool
  wsId : ℕ
  now : ℤ
  msg : RawMsg

/-- A sequence of deliveries, oldest first. -/
def deliverAll (ds : List Delivery) (m : ConnModel) : ConnModel :=
  ds.foldl (fun acc d => deliver d.pair d.urlMatches d.wsId d.now d.msg acc) m

/-- Non-increasing sequence of rationals. -/
def descending (ps : List ℚ) : Prop := ps.Pairwise fun a b => b ≤ a

/-- A published side is well-formed: at most 20 entries, prices
non-increasing. -/
def sideOK (l : List Entry) : Prop :=
  l.length ≤ 20 ∧ descending (l.map Entry.price)

/-- Both sides of a book are well-formed. -/
def obOK (ob : OrderBookData) : Prop := sideOK ob.bids ∧ sideOK ob.asks

/-- The published snapshot and the previous-snapshot memory are both
well-formed. -/
def stateOK (s : TVState) : Prop := obOK s.orderBookData ∧ obOK s.prevOrderBook

/-- 65 distinct spread samples, used to exercise the history buffer. -/
def samples65 : List SpreadSample := (List.range 65).map fun i => ⟨(i : ℤ), 0⟩

end CryptoVisor

namespace CryptoVisor

/-! ### Helper lemmas about the stable descending sort -/

theorem length_insertDesc (x : Level) (l : List Level) :
    (insertDesc x l).length = l.length + 1 := by
  induction l with
  | nil => rfl
  | cons y ys ih =>
    by_cases h : y.price ≤ x.price <;> simp [insertDesc, h, ih]

theorem mem_insertDesc {z x : Level} {l : List Level} :
    z ∈ insertDesc x l ↔ z = x ∨ z ∈ l := by
  induction l with
  | nil => simp [insertDesc]
  | cons y ys ih =>
    by_cases h : y.price ≤ x.price
    · simp only [insertDesc, if_pos h, List.mem_cons]
    · simp only [insertDesc, if_neg h, List.mem_cons, ih]
      tauto

theorem pairwise_insertDesc {x : Level} {l : List Level}
    (h : l.Pairwise fun a b => b.price ≤ a.price) :
    (insertDesc x l).Pairwise fun a b => b.price ≤ a.price := by
  induction l with
  | nil => simp [insertDesc]
  | cons y ys ih =>
    rcases List.pairwise_cons.mp h with ⟨hy, hys⟩
    by_cases hc : y.price ≤ x.price
    · simp only [insertDesc, if_pos hc]
      refine List.pairwise_cons.mpr ⟨?_, h⟩
      intro z hz
      rcases List.mem_cons.mp hz with rfl | hz
      · exact hc
      · exact le_trans (hy z hz) hc
    · simp only [insertDesc, if_neg hc]
      refine List.pairwise_cons.mpr ⟨?_, ih hys⟩
      intro z hz
      rcases mem_insertDesc.mp hz with rfl | hz
      · exact le_of_not_le hc
      · exact hy z hz

theorem length_sortDesc (l : List Level) : (sortDesc l).length = l.length := by
  induction l with
  | nil => rfl
  | cons x xs ih => simp [sortDesc, length_insertDesc, ih]

theorem mem_sortDesc {z : Level} {l : List Level} : z ∈ sortDesc l ↔ z ∈ l := by
  induction l with
  | nil => simp [sortDesc]
  | cons x xs ih => simp [sortDesc, mem_insertDesc, ih]

theorem pairwise_sortDesc (l : List Level) :
    (sortDesc l).Pairwise fun a b => b.price ≤ a.price := by
  induction l with
  | nil => simp [sortDesc]
  | cons x xs ih => exact pairwise_insertDesc ih

theorem processOrders_length_le (symbol : String) (orders : List RawLevel) :
    (processOrders symbol orders).length ≤ 20 := by
  simp only [processOrders, List.length_take]
  exact min_le_left _ _

theorem processOrders_sorted (symbol : String) (orders : List RawLevel) :
    descending ((processOrders symbol orders).map Level.price) := by
  unfold descending processOrders
  rw [List.pairwise_map]
  exact (pairwise_sortDesc _).sublist (List.take_sublist _ _)

theorem processOrders_mem {symbol : String} {orders : List RawLevel} {l : Level}
    (h : l ∈ processOrders symbol orders) :
    ∃ raw ∈ orders, processPriceLevel symbol raw = some l := by
  have h2 : l ∈ sortDesc (orders.filterMap (processPriceLevel symbol)) :=
    List.mem_of_mem_take h
  have h3 : l ∈ orders.filterMap (processPriceLevel symbol) := mem_sortDesc.mp h2
  simpa using List.mem_filterMap.mp h3

end CryptoVisor

namespace CryptoVisor

/-! ### Helper lemmas about totals, changes and volumes -/

theorem calculateTotalsAux_map_price (r : ℚ) (orders : List Level) :
    (calculateTotalsAux r orders).map Entry.price = orders.map Level.price := by
  induction orders generalizing r with
  | nil => rfl
  | cons o rest ih => simp [calculateTotalsAux, ih]

theorem calculateTotalsAux_length (r : ℚ) (orders : List Level) :
    (calculateTotalsAux r orders).length = orders.length := by
  induction orders generalizing r with
  | nil => rfl
  | cons o rest ih => simp [calculateTotalsAux, ih]

theorem calculateTotalsAux_total (r : ℚ) (orders : List Level) (i : ℕ) :
    ((calculateTotalsAux r orders)[i]?).map Entry.total
      = if i < orders.length
        then some (r + ((orders.map Level.amount).take (i + 1)).sum)
        else none := by
  induction orders generalizing r i with
  | nil => simp [calculateTotalsAux]
  | cons o rest ih =>
    cases i with
    | zero => simp [calculateTotalsAux]
    | succ n =>
      simp only [calculateTotalsAux, List.getElem?_cons_succ, ih, List.length_cons,
        Nat.succ_lt_succ_iff, List.map_cons, List.take_succ_cons, List.sum_cons]
      by_cases hn : n < rest.length
      · simp only [if_pos hn, Option.some_inj]
        ring
      · simp [hn]

theorem withChange_length (cur prev : List Entry) :
    (withChange cur prev).length = cur.length := by
  induction cur generalizing prev with
  | nil => rfl
  | cons e cur ih => cases prev <;> simp [withChange, ih]

theorem withChange_map_price (cur prev : List Entry) :
    (withChange cur prev).map Entry.price = cur.map Entry.price := by
  induction cur generalizing prev with
  | nil => rfl
  | cons e cur ih => cases prev <;> simp [withChange, ih]

theorem withChange_change (cur prev : List Entry) (i : ℕ) :
    ((withChange cur prev)[i]?).map Entry.change
      = (cur[i]?).map fun e =>
          ((prev[i]?).map fun p => e.amount - p.amount).getD 0 := by
  induction cur generalizing prev i with
  | nil => cases prev <;> simp [withChange]
  | cons e cur ih =>
    cases prev with
    | nil =>
      cases i with
      | zero => simp [withChange]
      | succ n => simpa [withChange] using ih [] n
    | cons p prev =>
      cases i with
      | zero => simp [withChange]
      | succ n => simpa [withChange] using ih prev n

theorem foldl_amount_nonneg (l : List Entry) (init : ℚ) (h0 : 0 ≤ init)
    (h : ∀ e ∈ l, 0 ≤ e.amount) :
    0 ≤ l.foldl (fun sum b => sum + b.amount) init := by
  induction l generalizing init with
  | nil => simpa using h0
  | cons e l ih =>
    simp only [List.foldl_cons]
    refine ih _ ?_ fun x hx => h x (by simp [hx])
    have he : 0 ≤ e.amount := h e (by simp)
    linarith

theorem bidVolume_nonneg {ob : OrderBookData} (h : ∀ e ∈ ob.bids, 0 ≤ e.amount) :
    0 ≤ bidVolume ob :=
  foldl_amount_nonneg _ _ le_rfl h

theorem askVolume_nonneg {ob : OrderBookData} (h : ∀ e ∈ ob.asks, 0 ≤ e.amount) :
    0 ≤ askVolume ob :=
  foldl_amount_nonneg _ _ le_rfl h

end CryptoVisor

namespace CryptoVisor

/-! ### The order-book side invariant actually maintained by the code -/

theorem sideOK_nil : sideOK [] := by simp [sideOK, descending]

theorem sideOK_processed (symbol : String) (orders : List RawLevel) (prev : List Entry) :
    sideOK (withChange (calculateTotals (processOrders symbol orders)) prev) := by
  constructor
  · rw [withChange_length, calculateTotals, calculateTotalsAux_length]
    exact processOrders_length_le symbol orders
  · rw [withChange_map_price, calculateTotals, calculateTotalsAux_map_price]
    exact processOrders_sorted symbol orders

theorem obOK_next (symbol : String) (bids asks : List RawLevel) (prev : OrderBookData) :
    obOK (nextOrderBook symbol bids asks prev) :=
  ⟨sideOK_processed symbol bids prev.bids, sideOK_processed symbol asks prev.asks⟩

theorem publish_stateOK (symbol : String) (now : ℤ) (bids asks : List RawLevel)
    {s : TVState} (h : stateOK s) :
    stateOK (publish symbol now bids asks s) := by
  unfold publish
  split
  · exact h
  · exact ⟨obOK_next symbol bids asks s.prevOrderBook, obOK_next symbol bids asks s.prevOrderBook⟩

theorem cleanup_stateOK (now : ℤ) {s : TVState} (h : stateOK s) :
    stateOK (cleanup now s) := by
  unfold cleanup
  split
  · exact h
  · exact ⟨h.1, ⟨sideOK_nil, sideOK_nil⟩⟩

theorem updateOrderBook_stateOK (symbol : String) (now : ℤ) (bids asks : List RawLevel)
    {s : TVState} (h : stateOK s) :
    stateOK (updateOrderBook symbol now bids asks s) := by
  unfold updateOrderBook
  split
  · exact h
  split
  · exact cleanup_stateOK now h
  split
  · exact publish_stateOK symbol now bids asks h
  · exact publish_stateOK symbol now bids asks h

end CryptoVisor

namespace CryptoVisor

/-! ### Connection-identity lemmas -/

theorem deliver_wsRef (pair : TradingPair) (u : Bool) (wsId : ℕ) (now : ℤ)
    (msg : RawMsg) (m : ConnModel) :
    (deliver pair u wsId now msg m).wsRef = m.wsRef := by
  unfold deliver
  split <;> rfl

theorem deliverAll_wsRef (ds : List Delivery) (m : ConnModel) :
    (deliverAll ds m).wsRef = m.wsRef := by
  induction ds generalizing m with
  | nil => rfl
  | cons d ds ih =>
    show (deliverAll ds (deliver d.pair d.urlMatches d.wsId d.now d.msg m)).wsRef = m.wsRef
    rw [ih, deliver_wsRef]

/-! ### Claim theorems -/

/-- C1, counterexample.  The claim asserts strictly descending bids,
strictly ascending asks, and no duplicate prices within a side.  On the
code: two parseable entries with the same price both survive
`processOrders`, so the output is not strictly descending and contains a
duplicate price; and a published asks side comes out of the same
descending sort, so it is descending, not ascending. -/
theorem claim_C1_counterexample :
    (processOrders "BTCUSDT"
        [.pair (some 100) (some 2), .pair (some 100) (some 1)]).map Level.price = [100, 100]
    ∧ ¬ List.Pairwise (fun a b : ℚ => b < a)
        ((processOrders "BTCUSDT"
          [.pair (some 100) (some 2), .pair (some 100) (some 1)]).map Level.price)
    ∧ (updateOrderBook "BTCUSDT" 600 []
        [.pair (some 100) (some 1), .pair (some 105) (some 2)]
        initState).orderBookData.asks.map Entry.price = [105, 100]
    ∧ ¬ List.Pairwise (fun a b : ℚ => a < b)
        ((updateOrderBook "BTCUSDT" 600 []
          [.pair (some 100) (some 1), .pair (some 105) (some 2)]
          initState).orderBookData.asks.map Entry.price) := by
  have h1 : (processOrders "BTCUSDT"
      [.pair (some 100) (some 2), .pair (some 100) (some 1)]).map Level.price = [100, 100] := by
    norm_num [processOrders, processPriceLevel, sortDesc, insertDesc]
  have h2 : (updateOrderBook "BTCUSDT" 600 []
      [.pair (some 100) (some 1), .pair (some 105) (some 2)]
      initState).orderBookData.asks.map Entry.price = [105, 100] := by
    norm_num [updateOrderBook, publish, nextOrderBook, processOrders, processPriceLevel,
      sortDesc, insertDesc, calculateTotals, calculateTotalsAux, withChange, initState,
      cleanup, bestPrice, pushSpread, calculateImbalance, bidVolume, askVolume,
      List.cons_ne_nil]
  refine ⟨h1, ?_, h2, ?_⟩
  · rw [h1]
    norm_num [List.pairwise_cons]
  · rw [h2]
    norm_num [List.pairwise_cons]

/-- C1, amended: for any input pair list `processOrders` returns at most
20 entries in non-increasing (weakly descending) price order, and every
published snapshot and previous-snapshot memory keeps both sides — asks
included, since both run through the same descending sort — at most 20
entries long and non-increasing by price (duplicate prices may remain):
the invariant holds initially and is preserved by every
`updateOrderBook` step. -/
theorem claim_C1_amended :
    ∀ (symbol : String) (orders bids asks : List RawLevel) (now : ℤ) (s : TVState),
      ((processOrders symbol orders).length ≤ 20
        ∧ descending ((processOrders symbol orders).map Level.price))
      ∧ stateOK initState
      ∧ (stateOK s → stateOK (updateOrderBook symbol now bids asks s)) := by
  intro symbol orders bids asks now s
  refine ⟨⟨processOrders_length_le symbol orders, processOrders_sorted symbol orders⟩, ?_, ?_⟩
  · exact ⟨⟨sideOK_nil, sideOK_nil⟩, ⟨sideOK_nil, sideOK_nil⟩⟩
  · exact updateOrderBook_stateOK symbol now bids asks

/-- C1, witness for the amended theorem at a concrete state. -/
theorem claim_C1_amended_witness :
    stateOK (updateOrderBook "BTCUSDT" 600 [] [] initState) :=
  (claim_C1_amended "BTCUSDT" [] [] [] 600 initState).2.2
    (claim_C1_amended "BTCUSDT" [] [] [] 600 initState).2.1

/-- C2, code evaluated at the failing input.  The configured XRP pair is
`{symbol := "XRPUSDT", name := "XRP-USD"}`, but `processPriceLevel`
compares `selectedPair.symbol` against the string `"XRP-USD"`, which is
the pair's `name`, not its `symbol`.  Hence for every configured pair —
the XRP pair included — every parsed price passes through unchanged
(45000 stays 45000), and the division by 40000 would fire only for a pair
whose `symbol` were literally `"XRP-USD"`, which none is. -/
theorem claim_C2_normalization_unreachable :
    tradingPairs.map TradingPair.symbol = ["BTCUSDT", "ETHUSDT", "XRPUSDT"]
    ∧ tradingPairs.map TradingPair.name = ["BTC-USD", "ETH-USD", "XRP-USD"]
    ∧ (∀ q a : ℚ, processPriceLevel "XRPUSDT" (.pair (some q) (some a)) = some ⟨q, a⟩)
    ∧ (∀ q a : ℚ, processPriceLevel "BTCUSDT" (.pair (some q) (some a)) = some ⟨q, a⟩)
    ∧ (∀ q a : ℚ, processPriceLevel "ETHUSDT" (.pair (some q) (some a)) = some ⟨q, a⟩)
    ∧ processPriceLevel "XRPUSDT" (.pair (some 45000) (some 2)) = some ⟨45000, 2⟩
    ∧ processPriceLevel "XRP-USD" (.pair (some 45000) (some 2)) = some ⟨1.125, 2⟩ := by
  have hx : ("XRPUSDT" : String) ≠ "XRP-USD" := by decide
  have hb : ("BTCUSDT" : String) ≠ "XRP-USD" := by decide
  have he : ("ETHUSDT" : String) ≠ "XRP-USD" := by decide
  refine ⟨rfl, rfl, ?_, ?_, ?_, ?_, ?_⟩
  · intro q a
    simp [processPriceLevel, hx]
  · intro q a
    simp [processPriceLevel, hb]
  · intro q a
    simp [processPriceLevel, he]
  · simp [processPriceLevel, hx]
  · norm_num [processPriceLevel]

/-- C3, amended: level processing discards exactly the raw pairs that are
malformed (not a two-field array) or whose price or amount parses to NaN;
every returned level originates from a surviving raw pair via
`processPriceLevel`, with its parsed values passed through — negative
parsed values included, since only `isNaN` is checked and no sign or
finiteness filter exists. -/
theorem claim_C3_amended :
    ∀ (symbol : String) (orders : List RawLevel) (l : Level),
      (l ∈ processOrders symbol orders →
        ∃ raw ∈ orders, processPriceLevel symbol raw = some l)
      ∧ (∀ raw : RawLevel,
          processPriceLevel symbol raw = none ↔
            raw = .malformed ∨ (∃ a, raw = .pair none a) ∨ (∃ p, raw = .pair p none)) := by
  intro symbol orders l
  refine ⟨fun h => processOrders_mem h, ?_⟩
  intro raw
  cases raw with
  | malformed => simp [processPriceLevel]
  | pair p a => cases p <;> cases a <;> simp [processPriceLevel]

/-- C3, witness for the amended theorem at a concrete level list. -/
theorem claim_C3_amended_witness :
    ∃ raw ∈ [RawLevel.pair (some (-5)) (some 2)],
      processPriceLevel "BTCUSDT" raw = some ⟨-5, 2⟩ :=
  (claim_C3_amended "BTCUSDT" [RawLevel.pair (some (-5)) (some 2)] ⟨-5, 2⟩).1
    (by norm_num [processOrders, processPriceLevel, sortDesc, insertDesc])

/-- C3, counterexample.  The claim asserts every processed level is
non-negative and negative inputs are discarded; but a parseable negative
price survives processing and appears in the output. -/
theorem claim_C3_counterexample :
    processPriceLevel "BTCUSDT" (.pair (some (-5)) (some 2)) = some ⟨-5, 2⟩
    ∧ (⟨-5, 2⟩ : Level) ∈ processOrders "BTCUSDT" [.pair (some (-5)) (some 2)]
    ∧ ¬ (0 ≤ (-5 : ℚ)) := by
  refine ⟨?_, ?_, by norm_num⟩
  · have hb : ("BTCUSDT" : String) ≠ "XRP-USD" := by decide
    simp [processPriceLevel, hb]
  · norm_num [processOrders, processPriceLevel, sortDesc, insertDesc]

/-- C4, counterexample.  The claim asserts the imbalance of every
snapshot lies in `[-1, 1]`; but a published snapshot reachable through
the pipeline (an ask with parsed amount `-1`) has imbalance 2. -/
theorem claim_C4_counterexample :
    (updateOrderBook "BTCUSDT" 600 [.pair (some 100) (some 3)]
        [.pair (some 100) (some (-1))] initState).imbalance = 2
    ∧ ¬ ((2 : ℚ) ≤ 1) := by
  constructor
  · norm_num [updateOrderBook, publish, nextOrderBook, processOrders, processPriceLevel,
      sortDesc, insertDesc, calculateTotals, calculateTotalsAux, withChange, initState,
      cleanup, bestPrice, pushSpread, calculateImbalance, bidVolume, askVolume,
      List.cons_ne_nil]
  · norm_num

/-- C4, amended: when every amount in the snapshot is non-negative the
imbalance lies in `[-1, 1]`; it is 0 whenever both volumes are 0; and
bid volume 3 against ask volume 1 yields `1/2`. -/
theorem claim_C4_amended :
    ∀ ob : OrderBookData,
      ((∀ e ∈ ob.bids, 0 ≤ e.amount) → (∀ e ∈ ob.asks, 0 ≤ e.amount) →
        -1 ≤ calculateImbalance ob ∧ calculateImbalance ob ≤ 1)
      ∧ (bidVolume ob = 0 → askVolume ob = 0 → calculateImbalance ob = 0)
      ∧ calculateImbalance ⟨[⟨100, 3, 3, 0⟩], [⟨101, 1, 1, 0⟩]⟩ = 1 / 2 := by
  intro ob
  refine ⟨?_, ?_, ?_⟩
  · intro hb ha
    have hbv := bidVolume_nonneg hb
    have hav := askVolume_nonneg ha
    unfold calculateImbalance
    split
    · rename_i ht
      constructor
      · rw [le_div_iff₀ ht]
        linarith
      · rw [div_le_one ht]
        linarith
    · norm_num
  · intro h1 h2
    unfold calculateImbalance
    rw [h1, h2]
    norm_num
  · norm_num [calculateImbalance, bidVolume, askVolume]

/-- C4, witness for the amended theorem at a concrete snapshot. -/
theorem claim_C4_amended_witness :
    -1 ≤ calculateImbalance ⟨[⟨100, 3, 3, 0⟩], [⟨101, 1, 1, 0⟩]⟩
    ∧ calculateImbalance ⟨[⟨100, 3, 3, 0⟩], [⟨101, 1, 1, 0⟩]⟩ ≤ 1 :=
  (claim_C4_amended ⟨[⟨100, 3, 3, 0⟩], [⟨101, 1, 1, 0⟩]⟩).1
    (by norm_num) (by norm_num)

/-- C5, confirmed: at every rank the attached `total` is the sum of the
amounts up to and including that rank (in particular the first entry's
total is its own amount; amounts `[2, 1, 1]` yield totals `[2, 3, 4]`),
and the attached `change` at rank `i` is `amount[i]` minus the previous
side's amount at rank `i` when a previous entry exists there, else 0. -/
theorem claim_C5_aggregation :
    ∀ (orders : List Level) (cur prev : List Entry) (i : ℕ),
      (((calculateTotals orders)[i]?).map Entry.total
          = if i < orders.length
            then some (((orders.map Level.amount).take (i + 1)).sum)
            else none)
      ∧ (((withChange cur prev)[i]?).map Entry.change
          = (cur[i]?).map fun e => ((prev[i]?).map fun p => e.amount - p.amount).getD 0)
      ∧ (calculateTotals [⟨10, 2⟩, ⟨9, 1⟩, ⟨8, 1⟩]).map Entry.total = [2, 3, 4] := by
  intro orders cur prev i
  refine ⟨?_, withChange_change cur prev i, ?_⟩
  · simpa using calculateTotalsAux_total 0 orders i
  · norm_num [calculateTotals, calculateTotalsAux]

set_option maxRecDepth 4000 in
/-- C6, confirmed: a push always leaves at most 60 samples; a push keeps
a suffix of the old buffer (evicting only from the head, preserving
insertion order) with the new sample appended at the tail; and 65 pushes
starting from empty retain exactly the 60 newest samples, the oldest 5
evicted. -/
theorem claim_C6_spread_buffer :
    (∀ (prev : List SpreadSample) (e : SpreadSample), (pushSpread prev e).length ≤ 60)
    ∧ (∀ (prev : List SpreadSample) (e : SpreadSample),
        ∃ k, pushSpread prev e = prev.drop k ++ [e])
    ∧ pushAll [] samples65 = samples65.drop 5
    ∧ samples65.length = 65 ∧ (pushAll [] samples65).length = 60 := by
  refine ⟨?_, ?_, ?_, by decide, by decide⟩
  · intro prev e
    unfold pushSpread
    split
    · rename_i h
      rw [List.length_append, List.length_drop]
      simp
      omega
    · rename_i h
      rw [List.length_append]
      simp
      omega
  · intro prev e
    unfold pushSpread
    split
    · exact ⟨prev.length - 59, rfl⟩
    · exact ⟨0, by rw [List.drop_zero]⟩
  · decide

/-- C7, confirmed: the throttle admits exactly when 500ms or more elapsed
since the last admitted time; a rejection leaves the throttle memory
untouched; a rejected call leaves the entire component state untouched;
and after an admission at `t1`, any call within strictly less than 500ms
is rejected. -/
theorem claim_C7_throttle :
    ∀ (symbol : String) (now t1 t2 last : ℤ) (bids asks : List RawLevel) (s : TVState),
      ((throttleGate last now).fst = true ↔ 500 ≤ now - last)
      ∧ ((throttleGate last now).fst = false → (throttleGate last now).snd = last)
      ∧ (now - s.lastUpdate < 500 → updateOrderBook symbol now bids asks s = s)
      ∧ (500 ≤ t1 - last → t2 - t1 < 500 → (throttleGate (throttleGate last t1).snd t2).fst = false) := by
  intro symbol now t1 t2 last bids asks s
  refine ⟨?_, ?_, ?_, ?_⟩
  · unfold throttleGate
    split <;> simp <;> omega
  · unfold throttleGate
    split <;> simp
  · intro h
    unfold updateOrderBook
    rw [if_pos h]
  · intro h1 h2
    have hfst : throttleGate last t1 = (true, t1) := by
      unfold throttleGate
      rw [if_neg (by omega)]
    rw [hfst]
    unfold throttleGate
    rw [if_pos h2]

/-- C7, witness at concrete times: 1000 then 1500 admits, 1900 is
rejected; and a rejected call leaves the initial state unchanged. -/
theorem claim_C7_throttle_witness :
    (throttleGate (throttleGate 1000 1500).snd 1900).fst = false
    ∧ updateOrderBook "BTCUSDT" 100 [] [] initState = initState :=
  ⟨(claim_C7_throttle "BTCUSDT" 0 1500 1900 1000 [] [] initState).2.2.2
      (by norm_num) (by norm_num),
   (claim_C7_throttle "BTCUSDT" 100 0 0 0 [] [] initState).2.2.1 (by norm_num [initState])⟩

/-- C8, confirmed: a delivery on a connection that is not the one held in
`wsRef` changes nothing at all (published snapshot, spread history and
imbalance included); and once a new connection is opened, any connection
minted earlier (its identity is below the counter) can never be the
current one, no matter how many messages the new connection has already
processed — so a stale message is dropped even after the new connection's
first valid message. -/
theorem claim_C8_stale_connection :
    ∀ (pair : TradingPair) (u : Bool) (wsId old : ℕ) (now : ℤ) (msg : RawMsg)
      (m : ConnModel) (ds : List Delivery),
      (m.wsRef ≠ some wsId → deliver pair u wsId now msg m = m)
      ∧ (old < m.nextId →
          (deliverAll ds (openConn m)).wsRef ≠ some old
          ∧ deliver pair u old now msg (deliverAll ds (openConn m))
              = deliverAll ds (openConn m)) := by
  intro pair u wsId old now msg m ds
  have hframe : ∀ (id2 : ℕ) (m2 : ConnModel),
      m2.wsRef ≠ some id2 → deliver pair u id2 now msg m2 = m2 := by
    intro id2 m2 h
    unfold deliver
    rw [if_neg h]
  refine ⟨hframe wsId m, ?_⟩
  intro hold
  have hws : (deliverAll ds (openConn m)).wsRef = some m.nextId := by
    rw [deliverAll_wsRef]
    rfl
  have hne : (deliverAll ds (openConn m)).wsRef ≠ some old := by
    rw [hws]
    simp only [ne_eq, Option.some_inj]
    omega
  exact ⟨hne, hframe old _ hne⟩

/-- C8, witness: connection 0 is superseded by a reconnect
(`openConn`), the new connection 1 processes a valid book message, and a
late frame on connection 0 then changes nothing. -/
theorem claim_C8_stale_connection_witness :
    deliver ⟨"BTCUSDT", "BTC-USD", "BTCUSDT"⟩ true 0 1200 .malformed
        (deliverAll [⟨⟨"BTCUSDT", "BTC-USD", "BTCUSDT"⟩, true, 1, 600,
            .book [.pair (some 100) (some 1)] [.pair (some 101) (some 1)]⟩]
          (openConn ⟨1, some 0, initState⟩))
      = deliverAll [⟨⟨"BTCUSDT", "BTC-USD", "BTCUSDT"⟩, true, 1, 600,
            .book [.pair (some 100) (some 1)] [.pair (some 101) (some 1)]⟩]
          (openConn ⟨1, some 0, initState⟩) :=
  ((claim_C8_stale_connection ⟨"BTCUSDT", "BTC-USD", "BTCUSDT"⟩ true 0 0 1200 .malformed
      ⟨1, some 0, initState⟩
      [⟨⟨"BTCUSDT", "BTC-USD", "BTCUSDT"⟩, true, 1, 600,
        .book [.pair (some 100) (some 1)] [.pair (some 101) (some 1)]⟩]).2
    (by norm_num)).2

/-- C9, confirmed: the handler is a total function of the parsed frame;
whenever routing yields no event — malformed input and unrecognized
shapes included — the whole component state (snapshot, spread history,
imbalance, connection status) is returned unchanged. -/
theorem claim_C9_total_handler :
    ∀ (pair : TradingPair) (u : Bool) (now : ℤ) (m : RawMsg) (s : TVState),
      (route pair u m = none → handleMessage pair u now m s = s)
      ∧ route pair u .malformed = none
      ∧ route pair u .other = none
      ∧ handleMessage pair u now .malformed s = s
      ∧ handleMessage pair u now .other s = s := by
  intro pair u now m s
  have hnone : ∀ m2 : RawMsg, route pair u m2 = none → handleMessage pair u now m2 s = s := by
    intro m2 h
    unfold handleMessage
    rw [h]
  exact ⟨hnone m, rfl, rfl, hnone _ rfl, hnone _ rfl⟩

/-- C9, witness at a concrete malformed frame. -/
theorem claim_C9_total_handler_witness :
    handleMessage ⟨"BTCUSDT", "BTC-USD", "BTCUSDT"⟩ true 0 .malformed initState = initState :=
  (claim_C9_total_handler ⟨"BTCUSDT", "BTC-USD", "BTCUSDT"⟩ true 0 .malformed initState).1 rfl

/-- C10, confirmed: on an admitted, non-flood update whose two processed
sides are both empty, the published snapshot, the previous-snapshot
memory, the spread history and the imbalance are all left exactly as
they were. -/
theorem claim_C10_empty_update_frame :
    ∀ (symbol : String) (now : ℤ) (bids asks : List RawLevel) (s : TVState),
      500 ≤ now - s.lastUpdate →
      (s.messageCount + 1 ≤ 100 ∨ 1000 ≤ now - s.lastMessageTime) →
      processOrders symbol bids = [] →
      processOrders symbol asks = [] →
      (updateOrderBook symbol now bids asks s).orderBookData = s.orderBookData
      ∧ (updateOrderBook symbol now bids asks s).prevOrderBook = s.prevOrderBook
      ∧ (updateOrderBook symbol now bids asks s).spreadHistory = s.spreadHistory
      ∧ (updateOrderBook symbol now bids asks s).imbalance = s.imbalance := by
  intro symbol now bids asks s h1 h2 hb ha
  unfold updateOrderBook
  rw [if_neg (by omega), if_neg (by omega)]
  split <;> (unfold publish; rw [if_pos ⟨hb, ha⟩]; exact ⟨rfl, rfl, rfl, rfl⟩)

/-- C10, witness: an admitted update whose only bid entry is malformed
and whose ask list is empty leaves all four published components of the
initial state unchanged. -/
theorem claim_C10_empty_update_frame_witness :
    (updateOrderBook "BTCUSDT" 600 [RawLevel.malformed] [] initState).orderBookData
        = initState.orderBookData
    ∧ (updateOrderBook "BTCUSDT" 600 [RawLevel.malformed] [] initState).prevOrderBook
        = initState.prevOrderBook
    ∧ (updateOrderBook "BTCUSDT" 600 [RawLevel.malformed] [] initState).spreadHistory
        = initState.spreadHistory
    ∧ (updateOrderBook "BTCUSDT" 600 [RawLevel.malformed] [] initState).imbalance
        = initState.imbalance :=
  claim_C10_empty_update_frame "BTCUSDT" 600 [RawLevel.malformed] [] initState
    (by norm_num [initState]) (Or.inl (by norm_num [initState])) rfl rfl

end CryptoVisor
